import Mathlib

/-!
Shallow embedding of the Pyright VS Code client supervisor
(`src/client/src/extension.ts`): the module-level `clients` map, the
on-demand language-client creation (`runLanguageClientOnDemand`), the
multi-root folder-removal handler, the single-root activation path, and
`deactivate`.  Editor events (document opened, workspace-folders changed)
and the asynchronous resolution of `LanguageClient.start()` / `stop()`
promises are modelled as an explicit event alphabet driving a step
function on the supervisor state.
-/

namespace PyrightClient

/-- Lifecycle states of one `LanguageClient` (one subordinate server
process): `start()` has been called (`starting`), the startup promise
resolved (`running`), `stop()` has been called (`stopping`), the stop
promise resolved (`stopped`). -/
inductive SessionState
  | starting
  | running
  | stopping
  | stopped
deriving DecidableEq, Repr

/-- The fields of a `TextDocument` that `runLanguageClientOnDemand`
inspects: `document.languageId`, `document.uri.scheme`, and the result of
`Workspace.getWorkspaceFolder(document.uri)` (the enclosing workspace
folder's URI string, or `none` when the document lies outside every
workspace folder). -/
structure Document where
  languageId : String
  scheme : String
  folder : Option String
deriving DecidableEq, Repr

/-- The supervisor state: the module-level
`clients : Map<string, LanguageClient>` (an insertion-ordered association
list from workspace-folder URI string to client id, as a JS `Map` is),
the lifecycle state of every client ever created, and the id the next
`new LanguageClient(...)` will receive. -/
structure ClientState where
  clients : List (String × Nat)
  sessions : List (Nat × SessionState)
  nextId : Nat
deriving DecidableEq, Repr

/-- Observable side effects of one handler invocation, in program order:
`clients.delete(key)`, `client.stop()`, and
`new LanguageClient(...)` followed by `languageClient.start()`. -/
inductive MicroOp
  | deleteEntry (root : String)
  | issueStop (sid : Nat)
  | startClient (sid : Nat) (root : String)
deriving DecidableEq, Repr

/-- JS `Map.prototype.has`. -/
def mapHas (m : List (String × Nat)) (k : String) : Bool :=
  m.any (fun e => e.1 == k)

/-- JS `Map.prototype.get` (`none` for an absent key). -/
def mapGet (m : List (String × Nat)) (k : String) : Option Nat :=
  (m.find? (fun e => e.1 == k)).map (fun e => e.2)

/-- JS `Map.prototype.set`: replaces the value in place when the key is
present, otherwise appends in insertion order. -/
def mapSet (m : List (String × Nat)) (k : String) (v : Nat) : List (String × Nat) :=
  if mapHas m k then m.map (fun e => if e.1 == k then (k, v) else e)
  else m ++ [(k, v)]

/-- JS `Map.prototype.delete`: removes the entry with the given key. -/
def mapDelete (m : List (String × Nat)) (k : String) : List (String × Nat) :=
  m.filter (fun e => !(e.1 == k))

/-- Overwrite the lifecycle state recorded for client `sid`. -/
def setSessionState (ss : List (Nat × SessionState)) (sid : Nat) (s : SessionState) :
    List (Nat × SessionState) :=
  ss.map (fun e => if e.1 == sid then (e.1, s) else e)

/-- The lifecycle state recorded for client `sid`, if that client exists. -/
def sessionStateOf (st : ClientState) (sid : Nat) : Option SessionState :=
  (st.sessions.find? (fun e => e.1 == sid)).map (fun e => e.2)

/-- `runLanguageClientOnDemand(document)` from `extension.ts`: returns
unchanged unless `document.languageId === 'python'` and
`document.uri.scheme === 'file'`; returns unchanged when the document has
no enclosing workspace folder or `clients` already has the folder's URI;
otherwise constructs a new `LanguageClient`, starts it, and inserts it
under the folder URI.  The second component is the trace of observable
side effects. -/
def runLanguageClientOnDemand (st : ClientState) (d : Document) :
    ClientState × List MicroOp :=
  if !(d.languageId == "python" && d.scheme == "file") then (st, [])
  else
    match d.folder with
    | none => (st, [])
    | some r =>
      if mapHas st.clients r then (st, [])
      else
        ({ clients := mapSet st.clients r st.nextId,
           sessions := st.sessions ++ [(st.nextId, SessionState.starting)],
           nextId := st.nextId + 1 },
         [MicroOp.startClient st.nextId r])

/-- The body of the `onDidChangeWorkspaceFolders` loop for one removed
folder: `clients.get(folder.uri.toString())`; if a client is present,
`clients.delete(...)` and then `client.stop()` — in that program order,
which the trace records. -/
def removeFolder (st : ClientState) (r : String) : ClientState × List MicroOp :=
  match mapGet st.clients r with
  | none => (st, [])
  | some sid =>
      ({ clients := mapDelete st.clients r,
         sessions := setSessionState st.sessions sid SessionState.stopping,
         nextId := st.nextId },
       [MicroOp.deleteEntry r, MicroOp.issueStop sid])

/-- The `onDidChangeWorkspaceFolders` handler: iterates over
`event.removed` only; `event.added` is never consulted. -/
def onFoldersChanged (st : ClientState) (removed : List String) :
    ClientState × List MicroOp :=
  removed.foldl
    (fun acc r =>
      let p := removeFolder acc.1 r
      (p.1, acc.2 ++ p.2))
    (st, [])

/-- Resolution of a pending `languageClient.start()` promise: the client
transitions from `starting` to `running`. -/
def completeStart (st : ClientState) (sid : Nat) : ClientState :=
  { st with sessions :=
      st.sessions.map (fun e =>
        if e.1 == sid && e.2 == SessionState.starting then (e.1, SessionState.running)
        else e) }

/-- Resolution of a pending `client.stop()` promise: the client
transitions from `stopping` to `stopped`. -/
def completeStop (st : ClientState) (sid : Nat) : ClientState :=
  { st with sessions :=
      st.sessions.map (fun e =>
        if e.1 == sid && e.2 == SessionState.stopping then (e.1, SessionState.stopped)
        else e) }

/-- The event alphabet driving the supervisor: a `TextDocument` is opened
(`onDidOpenTextDocument`), the set of workspace folders changes
(`onDidChangeWorkspaceFolders`, carrying the added and the removed folder
URIs), or a pending start/stop promise of client `sid` resolves. -/
inductive Event
  | docOpened (d : Document)
  | foldersChanged (added removed : List String)
  | startCompleted (sid : Nat)
  | stopCompleted (sid : Nat)
deriving DecidableEq, Repr

/-- One step of the supervisor in multi-root mode, where
`activate` registered `runLanguageClientOnDemand` on
`onDidOpenTextDocument` and the removal loop on
`onDidChangeWorkspaceFolders`. -/
def stepMulti (st : ClientState) : Event → ClientState × List MicroOp
  | Event.docOpened d => runLanguageClientOnDemand st d
  | Event.foldersChanged _ removed => onFoldersChanged st removed
  | Event.startCompleted sid => (completeStart st sid, [])
  | Event.stopCompleted sid => (completeStop st sid, [])

/-- Run a sequence of events in multi-root mode. -/
def runMulti (st : ClientState) : List Event → ClientState
  | [] => st
  | e :: es => runMulti (stepMulti st e).1 es

/-- The state before `activate` runs: the module-level declaration
`let clients = new Map()` starts empty. -/
def initState : ClientState := { clients := [], sessions := [], nextId := 0 }

/-- The multi-root branch of `activate`: the startup scan
`Workspace.textDocuments.forEach(runLanguageClientOnDemand)` over the
already-open documents, starting from the empty `clients` map. -/
def activateMulti (openDocs : List Document) : ClientState :=
  openDocs.foldl (fun st d => (runLanguageClientOnDemand st d).1) initState

/-- The key used in the single-root branch:
`Workspace.rootPath || '/'` (JS `||` yields `'/'` for `undefined` and for
the empty string). -/
def defaultKey (rootPath : Option String) : String :=
  match rootPath with
  | none => "/"
  | some p => if p == "" then "/" else p

/-- The single-root branch of `activate`: one `LanguageClient` is created
and started eagerly and inserted under `Workspace.rootPath || '/'`. -/
def activateSingle (rootPath : Option String) : ClientState :=
  { clients := [(defaultKey rootPath, 0)],
    sessions := [(0, SessionState.starting)],
    nextId := 1 }

/-- The mode test in `activate`:
`Workspace.workspaceFolders && Workspace.workspaceFolders.length > 1`. -/
def isMultiRoot (workspaceFolders : Option (List String)) : Bool :=
  match workspaceFolders with
  | none => false
  | some l => decide (l.length > 1)

/-- The whole supervisor state: which `activate` branch ran (hence which
event handlers are registered) and the client state. -/
structure ExtState where
  multi : Bool
  cs : ClientState
deriving DecidableEq, Repr

/-- `activate(context)`: selects the branch on the workspace shape, then
either registers the on-demand handlers and scans the open documents
(multi-root) or eagerly creates the single client (single-root). -/
def activate (workspaceFolders : Option (List String)) (rootPath : Option String)
    (openDocs : List Document) : ExtState :=
  if isMultiRoot workspaceFolders then ⟨true, activateMulti openDocs⟩
  else ⟨false, activateSingle rootPath⟩

/-- One supervisor step.  In single-root mode no document or folder
handler was registered, so only promise resolutions touch the state. -/
def step (st : ExtState) (e : Event) : ExtState × List MicroOp :=
  if st.multi then
    let p := stepMulti st.cs e
    (⟨true, p.1⟩, p.2)
  else
    match e with
    | Event.startCompleted sid => (⟨false, completeStart st.cs sid⟩, [])
    | Event.stopCompleted sid => (⟨false, completeStop st.cs sid⟩, [])
    | _ => (st, [])

/-- Run a sequence of events through the whole supervisor. -/
def run (st : ExtState) : List Event → ExtState
  | [] => st
  | e :: es => run (step st e).1 es

/-- `deactivate()`: pushes `client.stop()` for every client in the map and
returns `Promise.all` of the stop promises.  The `clients` map itself is
not modified.  The trace records the issued stops. -/
def deactivate (st : ClientState) : ClientState × List MicroOp :=
  ({ clients := st.clients,
     sessions := st.clients.foldl
       (fun ss e => setSessionState ss e.2 SessionState.stopping) st.sessions,
     nextId := st.nextId },
   st.clients.map (fun e => MicroOp.issueStop e.2))

/-- The registry keys are pairwise distinct. -/
def keysNodup (st : ClientState) : Prop :=
  (st.clients.map Prod.fst).Nodup

end PyrightClient

namespace PyrightClient

/-! ### Map lemmas -/

theorem not_mem_keys_of_not_has (m : List (String × Nat)) (k : String)
    (h : mapHas m k = false) : k ∉ m.map Prod.fst := by
  intro hk
  rcases List.mem_map.mp hk with ⟨e, he, hek⟩
  have ht : m.any (fun e => e.1 == k) = true :=
    List.any_eq_true.mpr ⟨e, he, by simp [hek]⟩
  unfold mapHas at h
  rw [ht] at h
  exact Bool.noConfusion h

theorem keys_mapSet_of_not_has (m : List (String × Nat)) (k : String) (v : Nat)
    (h : mapHas m k = false) :
    (mapSet m k v).map Prod.fst = m.map Prod.fst ++ [k] := by
  simp [mapSet, h]

theorem keys_mapDelete_sublist (m : List (String × Nat)) (k : String) :
    ((mapDelete m k).map Prod.fst).Sublist (m.map Prod.fst) :=
  (List.filter_sublist m).map Prod.fst

theorem mapHas_mapDelete_self (m : List (String × Nat)) (k : String) :
    mapHas (mapDelete m k) k = false := by
  simp [mapHas, mapDelete, List.any_eq_true, List.mem_filter]

theorem mapGet_append_single_ne (m : List (String × Nat)) (r k : String) (v : Nat)
    (h : k ≠ r) : mapGet (m ++ [(r, v)]) k = mapGet m k := by
  unfold mapGet
  rw [List.find?_append]
  have h2 : ([((r : String), (v : Nat))].find? (fun e => e.1 == k)) = none := by
    simp [List.find?_singleton, Ne.symm h]
  rw [h2, Option.or_none]

theorem mapGet_mapSet_ne_of_not_has (m : List (String × Nat)) (r k : String) (v : Nat)
    (hh : mapHas m r = false) (h : k ≠ r) :
    mapGet (mapSet m r v) k = mapGet m k := by
  unfold mapSet
  rw [hh]
  simp only [Bool.false_eq_true, if_false]
  exact mapGet_append_single_ne m r k v h

theorem find?_key_filter_ne (m : List (String × Nat)) (r k : String)
    (h : k ≠ r) :
    (m.filter (fun e => !(e.1 == r))).find? (fun e => e.1 == k)
      = m.find? (fun e => e.1 == k) := by
  induction m with
  | nil => rfl
  | cons a t ih =>
    by_cases har : a.1 = r
    · have hfilter : (a :: t).filter (fun e => !(e.1 == r))
          = t.filter (fun e => !(e.1 == r)) := by
        simp [List.filter_cons, har]
      have hak : ¬((fun e : String × Nat => e.1 == k) a = true) := by
        simp [har, Ne.symm h]
      rw [hfilter, List.find?_cons_of_neg (p := fun e => e.1 == k) t hak]
      exact ih
    · have hfilter : (a :: t).filter (fun e => !(e.1 == r))
          = a :: t.filter (fun e => !(e.1 == r)) := by
        simp [List.filter_cons, har]
      by_cases hak : a.1 = k
      · have hpa : ((fun e : String × Nat => e.1 == k) a = true) := by simp [hak]
        rw [hfilter,
          List.find?_cons_of_pos (p := fun e => e.1 == k)
            (t.filter (fun e => !(e.1 == r))) hpa,
          List.find?_cons_of_pos (p := fun e => e.1 == k) t hpa]
      · have hpa : ¬((fun e : String × Nat => e.1 == k) a = true) := by simp [hak]
        rw [hfilter,
          List.find?_cons_of_neg (p := fun e => e.1 == k)
            (t.filter (fun e => !(e.1 == r))) hpa,
          List.find?_cons_of_neg (p := fun e => e.1 == k) t hpa]
        exact ih

theorem mapGet_mapDelete_ne (m : List (String × Nat)) (r k : String)
    (h : k ≠ r) : mapGet (mapDelete m r) k = mapGet m k := by
  unfold mapGet mapDelete
  rw [find?_key_filter_ne m r k h]

theorem mapHas_mapSet_self (m : List (String × Nat)) (k : String) (v : Nat) :
    mapHas (mapSet m k v) k = true := by
  unfold mapSet
  by_cases hh : mapHas m k
  · rw [if_pos hh]
    unfold mapHas at hh ⊢
    rcases List.any_eq_true.mp hh with ⟨e, he, hek⟩
    refine List.any_eq_true.mpr ⟨(k, v), List.mem_map.mpr ⟨e, he, ?_⟩, by simp⟩
    simp [show e.1 = k by simpa using hek]
  · rw [if_neg hh]
    unfold mapHas
    simp

theorem mapGet_none_of_not_has (m : List (String × Nat)) (k : String)
    (h : mapHas m k = false) : mapGet m k = none := by
  unfold mapGet
  have : m.find? (fun e => e.1 == k) = none := by
    rw [List.find?_eq_none]
    intro e he
    intro hek
    exact not_mem_keys_of_not_has m k h (List.mem_map.mpr ⟨e, he, by simpa using hek⟩)
  rw [this]
  rfl

/-! ### Registry-key uniqueness is preserved by every handler -/

theorem keysNodup_onDemand (st : ClientState) (d : Document)
    (h : keysNodup st) : keysNodup (runLanguageClientOnDemand st d).1 := by
  unfold runLanguageClientOnDemand
  by_cases hq : (d.languageId == "python" && d.scheme == "file") = true
  · rw [hq]
    cases hf : d.folder with
    | none => simpa using h
    | some r =>
      by_cases hh : mapHas st.clients r
      · simpa [hh] using h
      · rw [Bool.not_eq_true] at hh
        simp only [Bool.not_true, Bool.false_eq_true, if_false, hh]
        unfold keysNodup at h ⊢
        simp only
        rw [keys_mapSet_of_not_has st.clients r st.nextId hh]
        have hnm := not_mem_keys_of_not_has st.clients r hh
        simp [List.nodup_append, h, hnm]
  · rw [Bool.not_eq_true] at hq
    simpa [hq] using h

theorem keysNodup_removeFolder (st : ClientState) (r : String)
    (h : keysNodup st) : keysNodup (removeFolder st r).1 := by
  unfold removeFolder
  cases hg : mapGet st.clients r with
  | none => simpa using h
  | some sid =>
    unfold keysNodup at h ⊢
    simp only
    exact h.sublist (keys_mapDelete_sublist st.clients r)

theorem foldersChanged_fst (removed : List String) :
    ∀ (st : ClientState) (tr : List MicroOp),
      (removed.foldl
        (fun acc r =>
          let p := removeFolder acc.1 r
          (p.1, acc.2 ++ p.2))
        (st, tr)).1
      = removed.foldl (fun s r => (removeFolder s r).1) st := by
  induction removed with
  | nil => intro st tr; rfl
  | cons a t ih =>
    intro st tr
    simp only [List.foldl_cons]
    exact ih _ _

theorem onFoldersChanged_fst (st : ClientState) (removed : List String) :
    (onFoldersChanged st removed).1
      = removed.foldl (fun s r => (removeFolder s r).1) st :=
  foldersChanged_fst removed st []

theorem keysNodup_onFoldersChanged (removed : List String) :
    ∀ (st : ClientState), keysNodup st → keysNodup (onFoldersChanged st removed).1 := by
  intro st h
  rw [onFoldersChanged_fst]
  induction removed generalizing st with
  | nil => exact h
  | cons a t ih =>
    simp only [List.foldl_cons]
    exact ih _ (keysNodup_removeFolder st a h)

theorem keysNodup_stepMulti (st : ClientState) (e : Event)
    (h : keysNodup st) : keysNodup (stepMulti st e).1 := by
  cases e with
  | docOpened d => exact keysNodup_onDemand st d h
  | foldersChanged added removed => exact keysNodup_onFoldersChanged removed st h
  | startCompleted sid => exact h
  | stopCompleted sid => exact h

theorem keysNodup_runMulti (es : List Event) :
    ∀ (st : ClientState), keysNodup st → keysNodup (runMulti st es) := by
  induction es with
  | nil => intro st h; exact h
  | cons e t ih =>
    intro st h
    exact ih _ (keysNodup_stepMulti st e h)

theorem keysNodup_activateMulti (openDocs : List Document) :
    keysNodup (activateMulti openDocs) := by
  unfold activateMulti
  have : ∀ (st : ClientState), keysNodup st →
      keysNodup (openDocs.foldl (fun st d => (runLanguageClientOnDemand st d).1) st) := by
    induction openDocs with
    | nil => intro st h; exact h
    | cons d t ih =>
      intro st h
      simp only [List.foldl_cons]
      exact ih _ (keysNodup_onDemand st d h)
  exact this initState (by simp [keysNodup, initState])

/-- C1: in multi-root mode, for every startup scan and every subsequent
sequence of editor events, the `clients` registry never holds two entries
for the same workspace-folder URI: its keys are pairwise distinct at
every reachable state. -/
theorem registry_never_two_sessions_per_root (openDocs : List Document)
    (es : List Event) :
    keysNodup (runMulti (activateMulti openDocs) es) :=
  keysNodup_runMulti es (activateMulti openDocs) (keysNodup_activateMulti openDocs)

/-! ### Concrete fixtures -/

/-- A Python file-scheme document inside workspace folder `file:///r1`. -/
def exDoc : Document := ⟨"python", "file", some "file:///r1"⟩

/-- A Python file-scheme document with no enclosing workspace folder. -/
def exDocNone : Document := ⟨"python", "file", none⟩

/-- A non-Python document inside workspace folder `file:///r1`. -/
def exDocPlain : Document := ⟨"plaintext", "file", some "file:///r1"⟩

/-- A registry holding one running client (id 0) for `file:///r1`. -/
def exSt : ClientState :=
  ⟨[("file:///r1", 0)], [(0, SessionState.running)], 1⟩

/-- A registry holding running clients for `file:///r1` and `file:///r2`. -/
def exSt2 : ClientState :=
  ⟨[("file:///r1", 0), ("file:///r2", 1)],
   [(0, SessionState.running), (1, SessionState.running)], 2⟩

/-! ### C2: idempotence of on-demand creation -/

theorem onDemand_noop_of_has (st : ClientState) (d : Document) (r : String)
    (hf : d.folder = some r) (hh : mapHas st.clients r = true) :
    runLanguageClientOnDemand st d = (st, []) := by
  unfold runLanguageClientOnDemand
  by_cases hq : (d.languageId == "python" && d.scheme == "file") = true
  · simp [hq, hf, hh]
  · rw [Bool.not_eq_true] at hq
    simp [hq]

theorem onDemand_has_after (st : ClientState) (d : Document) (r : String)
    (hl : d.languageId = "python") (hs : d.scheme = "file") (hf : d.folder = some r) :
    mapHas (runLanguageClientOnDemand st d).1.clients r = true := by
  unfold runLanguageClientOnDemand
  have hq : (d.languageId == "python" && d.scheme == "file") = true := by
    simp [hl, hs]
  by_cases hh : mapHas st.clients r
  · simp [hq, hf, hh]
  · rw [Bool.not_eq_true] at hh
    simp only [hq, Bool.not_true, Bool.false_eq_true, if_false, hf, hh]
    exact mapHas_mapSet_self st.clients r st.nextId

/-- C2: a second document-opened event for a root whose entry is already
in `clients` leaves the registry state identical, creates no new
`LanguageClient` (empty side-effect trace), and looks up the very same
entry. -/
theorem ensure_twice_same_session (st : ClientState) (d : Document) (r : String)
    (hl : d.languageId = "python") (hs : d.scheme = "file") (hf : d.folder = some r) :
    runLanguageClientOnDemand (runLanguageClientOnDemand st d).1 d
      = ((runLanguageClientOnDemand st d).1, []) ∧
    mapGet (runLanguageClientOnDemand (runLanguageClientOnDemand st d).1 d).1.clients r
      = mapGet (runLanguageClientOnDemand st d).1.clients r := by
  have h1 : runLanguageClientOnDemand (runLanguageClientOnDemand st d).1 d
      = ((runLanguageClientOnDemand st d).1, []) :=
    onDemand_noop_of_has _ d r hf (onDemand_has_after st d r hl hs hf)
  exact ⟨h1, by rw [h1]⟩

/-- C2 witness at a concrete state and document. -/
theorem ensure_twice_same_session_witness :
    exDoc.languageId = "python" ∧ exDoc.scheme = "file" ∧
    exDoc.folder = some "file:///r1" ∧
    runLanguageClientOnDemand (runLanguageClientOnDemand initState exDoc).1 exDoc
      = ((runLanguageClientOnDemand initState exDoc).1, []) :=
  ⟨rfl, rfl, rfl,
   (ensure_twice_same_session initState exDoc "file:///r1" rfl rfl rfl).1⟩

/-! ### C5: ownerless documents are ignored -/

/-- C5: a qualifying document (`languageId 'python'`, scheme `'file'`)
with no enclosing workspace folder creates no client and leaves the
registry state unchanged, with an empty side-effect trace. -/
theorem ownerless_document_ignored (st : ClientState) (d : Document)
    (hl : d.languageId = "python") (hs : d.scheme = "file")
    (hf : d.folder = none) :
    runLanguageClientOnDemand st d = (st, []) := by
  unfold runLanguageClientOnDemand
  simp [hl, hs, hf]

/-- C5 witness at a concrete state and document. -/
theorem ownerless_document_ignored_witness :
    exDocNone.languageId = "python" ∧ exDocNone.scheme = "file" ∧
    exDocNone.folder = none ∧
    runLanguageClientOnDemand exSt exDocNone = (exSt, []) :=
  ⟨rfl, rfl, rfl, ownerless_document_ignored exSt exDocNone rfl rfl rfl⟩

/-! ### C8: removing an absent root is a no-op -/

/-- C8: a removed workspace folder whose URI has no entry in `clients`
leaves the registry state unchanged and issues no stop request. -/
theorem remove_absent_root_noop (st : ClientState) (r : String)
    (h : mapGet st.clients r = none) :
    removeFolder st r = (st, []) := by
  unfold removeFolder
  rw [h]

/-- C8 witness at a concrete state. -/
theorem remove_absent_root_noop_witness :
    mapGet exSt.clients "file:///absent" = none ∧
    removeFolder exSt "file:///absent" = (exSt, []) :=
  ⟨by decide, remove_absent_root_noop exSt "file:///absent" (by decide)⟩

/-! ### C3: `deactivate` stops every client but never empties the map -/

/-- C3 counterexample: with one client registered, `deactivate` resolves
(and even after the stop promise itself resolves) with the `clients` map
still holding its entry — the mapping is not empty. -/
theorem deactivate_leaves_entries_counterexample :
    (completeStop (deactivate exSt).1 0).clients = [("file:///r1", 0)] ∧
    (deactivate exSt).1.clients ≠ [] := by
  constructor
  · rfl
  · decide

/-- C3 (amended): after `deactivate`, a stop request has been issued for
every entry of the registry, but the `clients` map is left exactly as it
was — `deactivate` does not delete entries. -/
theorem deactivate_stops_all_keeps_entries (st : ClientState) :
    (deactivate st).1.clients = st.clients ∧
    ∀ e ∈ st.clients, MicroOp.issueStop e.2 ∈ (deactivate st).2 := by
  refine ⟨rfl, ?_⟩
  intro e he
  unfold deactivate
  exact List.mem_map.mpr ⟨e, he, rfl⟩

/-- C3 amended-claim witness at a concrete state. -/
theorem deactivate_stops_all_keeps_entries_witness :
    (deactivate exSt).1.clients = exSt.clients ∧
    MicroOp.issueStop 0 ∈ (deactivate exSt).2 :=
  ⟨(deactivate_stops_all_keeps_entries exSt).1,
   (deactivate_stops_all_keeps_entries exSt).2 ("file:///r1", 0) (by decide)⟩

/-! ### C4: removal deletes the entry before issuing the stop -/

/-- C4 counterexample: removing `file:///r1` from a registry that holds it
produces the side-effect trace `[deleteEntry, issueStop]` — the map
deletion is the first observable operation, so the stop request is NOT
issued strictly before the entry is deleted. -/
theorem remove_deletes_before_stop_counterexample :
    (removeFolder exSt "file:///r1").2
      = [MicroOp.deleteEntry "file:///r1", MicroOp.issueStop 0] ∧
    (removeFolder exSt "file:///r1").2.head? = some (MicroOp.deleteEntry "file:///r1") := by
  constructor <;> rfl

/-- C4 (amended): when a removed root has a registry entry, the handler
first deletes the entry from `clients` and then issues the graceful-stop
request — the trace is exactly `[deleteEntry r, issueStop sid]` — and
afterwards the key is gone from the map. -/
theorem remove_deletes_then_stops (st : ClientState) (r : String) (sid : Nat)
    (h : mapGet st.clients r = some sid) :
    (removeFolder st r).2 = [MicroOp.deleteEntry r, MicroOp.issueStop sid] ∧
    mapHas (removeFolder st r).1.clients r = false := by
  unfold removeFolder
  rw [h]
  exact ⟨rfl, mapHas_mapDelete_self st.clients r⟩

/-- C4 amended-claim witness at a concrete state. -/
theorem remove_deletes_then_stops_witness :
    mapGet exSt.clients "file:///r1" = some 0 ∧
    (removeFolder exSt "file:///r1").2
      = [MicroOp.deleteEntry "file:///r1", MicroOp.issueStop 0] ∧
    mapHas (removeFolder exSt "file:///r1").1.clients "file:///r1" = false :=
  ⟨by decide,
   (remove_deletes_then_stops exSt "file:///r1" 0 (by decide)).1,
   (remove_deletes_then_stops exSt "file:///r1" 0 (by decide)).2⟩

/-! ### C9: frame property of single events -/

theorem onDemand_frame (st : ClientState) (d : Document) (r k : String)
    (hf : d.folder = some r) (hk : k ≠ r) :
    mapGet (runLanguageClientOnDemand st d).1.clients k = mapGet st.clients k := by
  unfold runLanguageClientOnDemand
  by_cases hq : (d.languageId == "python" && d.scheme == "file") = true
  · by_cases hh : mapHas st.clients r
    · simp [hq, hf, hh]
    · rw [Bool.not_eq_true] at hh
      simp only [hq, Bool.not_true, Bool.false_eq_true, if_false, hf, hh]
      exact mapGet_mapSet_ne_of_not_has st.clients r k st.nextId hh hk
  · rw [Bool.not_eq_true] at hq
    simp [hq]

theorem removeFolder_frame (st : ClientState) (r k : String) (hk : k ≠ r) :
    mapGet (removeFolder st r).1.clients k = mapGet st.clients k := by
  unfold removeFolder
  cases hg : mapGet st.clients r with
  | none => rfl
  | some sid =>
    simp only
    exact mapGet_mapDelete_ne st.clients r k hk

/-- C9: an editor event touches at most the registry entry keyed by its
own workspace-folder URI — a document-opened event for a document under
folder `r` and a folders-changed event removing exactly folder `r` both
leave the binding of every other key `k` unchanged. -/
theorem event_frame_property (st : ClientState) (d : Document)
    (a : List String) (r k : String) (hk : k ≠ r) :
    (d.folder = some r →
      mapGet (stepMulti st (Event.docOpened d)).1.clients k = mapGet st.clients k) ∧
    mapGet (stepMulti st (Event.foldersChanged a [r])).1.clients k
      = mapGet st.clients k := by
  constructor
  · intro hf
    exact onDemand_frame st d r k hf hk
  · show mapGet (onFoldersChanged st [r]).1.clients k = mapGet st.clients k
    rw [onFoldersChanged_fst]
    simp only [List.foldl_cons, List.foldl_nil]
    exact removeFolder_frame st r k hk

/-- C9 witness at concrete states and events. -/
theorem event_frame_property_witness :
    "file:///r2" ≠ "file:///r1" ∧
    mapGet (stepMulti exSt2 (Event.docOpened exDoc)).1.clients "file:///r2"
      = mapGet exSt2.clients "file:///r2" ∧
    mapGet (stepMulti exSt2 (Event.foldersChanged [] ["file:///r1"])).1.clients "file:///r2"
      = mapGet exSt2.clients "file:///r2" :=
  ⟨by decide,
   (event_frame_property exSt2 exDoc [] "file:///r1" "file:///r2" (by decide)).1 rfl,
   (event_frame_property exSt2 exDoc [] "file:///r1" "file:///r2" (by decide)).2⟩

/-! ### C10: only a qualifying document-opened event adds an entry -/

theorem removeFolder_no_new_key (st : ClientState) (r k : String)
    (h : mapGet st.clients k = none) :
    mapGet (removeFolder st r).1.clients k = none := by
  by_cases hkr : k = r
  · subst hkr
    unfold removeFolder
    cases hg : mapGet st.clients k with
    | none => exact h
    | some sid =>
      exact mapGet_none_of_not_has _ _ (mapHas_mapDelete_self st.clients k)
  · rw [removeFolder_frame st r k hkr]
    exact h

theorem onFoldersChanged_no_new_key (removed : List String) :
    ∀ (st : ClientState) (k : String), mapGet st.clients k = none →
      mapGet (onFoldersChanged st removed).1.clients k = none := by
  intro st k h
  rw [onFoldersChanged_fst]
  induction removed generalizing st with
  | nil => exact h
  | cons a t ih =>
    simp only [List.foldl_cons]
    exact ih _ (removeFolder_no_new_key st a k h)

/-- C10: (a) a folders-changed event that only adds roots (empty removed
list) leaves the supervisor state unchanged; (b) a document-opened event
for a non-qualifying document leaves it unchanged with no side effects;
(c) the only event that can add a registry entry for a key `k` is a
document-opened event for a qualifying Python file document whose
enclosing folder is `k` itself. -/
theorem only_qualifying_doc_adds_entry (st : ClientState) (a : List String)
    (d : Document) (e : Event) (k : String) :
    (stepMulti st (Event.foldersChanged a [])).1 = st ∧
    (¬(d.languageId = "python" ∧ d.scheme = "file") →
      stepMulti st (Event.docOpened d) = (st, [])) ∧
    (mapGet st.clients k = none →
      mapGet (stepMulti st e).1.clients k ≠ none →
      ∃ d2, e = Event.docOpened d2 ∧ d2.languageId = "python" ∧
        d2.scheme = "file" ∧ d2.folder = some k) := by
  refine ⟨rfl, ?_, ?_⟩
  · intro hnq
    show runLanguageClientOnDemand st d = (st, [])
    unfold runLanguageClientOnDemand
    have hq : (d.languageId == "python" && d.scheme == "file") = false := by
      rcases not_and_or.mp hnq with h1 | h1 <;> simp [h1]
    simp [hq]
  · intro hnone hsome
    cases e with
    | docOpened d2 =>
      refine ⟨d2, rfl, ?_⟩
      by_cases hq : (d2.languageId == "python" && d2.scheme == "file") = true
      · have hlq : d2.languageId = "python" ∧ d2.scheme = "file" := by
          simpa using hq
        refine ⟨hlq.1, hlq.2, ?_⟩
        cases hf : d2.folder with
        | none =>
          exfalso
          apply hsome
          show mapGet (runLanguageClientOnDemand st d2).1.clients k = none
          rw [ownerless_document_ignored st d2 hlq.1 hlq.2 hf]
          exact hnone
        | some r =>
          by_cases hkr : k = r
          · rw [hkr]
          · exfalso
            apply hsome
            show mapGet (runLanguageClientOnDemand st d2).1.clients k = none
            rw [onDemand_frame st d2 r k hf hkr]
            exact hnone
      · exfalso
        apply hsome
        show mapGet (runLanguageClientOnDemand st d2).1.clients k = none
        unfold runLanguageClientOnDemand
        rw [Bool.not_eq_true] at hq
        simp [hq, hnone]
    | foldersChanged added removed =>
      exact absurd (onFoldersChanged_no_new_key removed st k hnone) hsome
    | startCompleted sid =>
      exact absurd hnone hsome
    | stopCompleted sid =>
      exact absurd hnone hsome

/-- C10 witness: a pure root-added event is a no-op, a plaintext document
is ignored, and a concrete qualifying document-opened event that did add
an entry is indeed classified as such. -/
theorem only_qualifying_doc_adds_entry_witness :
    (stepMulti exSt (Event.foldersChanged ["file:///r9"] [])).1 = exSt ∧
    stepMulti exSt (Event.docOpened exDocPlain) = (exSt, []) ∧
    ∃ d2, Event.docOpened exDoc = Event.docOpened d2 ∧
      d2.languageId = "python" ∧ d2.scheme = "file" ∧
      d2.folder = some "file:///r1" := by
  have h := only_qualifying_doc_adds_entry initState ["file:///r9"] exDocPlain
    (Event.docOpened exDoc) "file:///r1"
  have h2 := only_qualifying_doc_adds_entry exSt ["file:///r9"] exDocPlain
    (Event.docOpened exDoc) "file:///r1"
  exact ⟨h2.1, h2.2.1 (by decide), h.2.2 (by decide) (by decide)⟩

/-! ### C7: single-root mode -/

theorem step_single_preserves (st : ExtState) (e : Event) (h : st.multi = false) :
    (step st e).1.multi = false ∧
    (step st e).1.cs.clients = st.cs.clients ∧
    (step st e).1.cs.sessions.map Prod.fst = st.cs.sessions.map Prod.fst := by
  unfold step
  rw [h]
  simp only [Bool.false_eq_true, if_false]
  cases e with
  | docOpened d => exact ⟨h, rfl, rfl⟩
  | foldersChanged added removed => exact ⟨h, rfl, rfl⟩
  | startCompleted sid =>
    refine ⟨rfl, rfl, ?_⟩
    simp only [completeStart, List.map_map]
    apply List.map_congr_left
    intro x hx
    by_cases h1 : (x.1 == sid && x.2 == SessionState.starting) = true <;>
      simp [Function.comp, h1]
  | stopCompleted sid =>
    refine ⟨rfl, rfl, ?_⟩
    simp only [completeStop, List.map_map]
    apply List.map_congr_left
    intro x hx
    by_cases h1 : (x.1 == sid && x.2 == SessionState.stopping) = true <;>
      simp [Function.comp, h1]

theorem run_single_preserves (es : List Event) :
    ∀ (st : ExtState), st.multi = false →
      (run st es).cs.clients = st.cs.clients ∧
      (run st es).cs.sessions.map Prod.fst = st.cs.sessions.map Prod.fst := by
  induction es with
  | nil => intro st h; exact ⟨rfl, rfl⟩
  | cons e t ih =>
    intro st h
    have hs := step_single_preserves st e h
    have ht := ih (step st e).1 hs.1
    exact ⟨ht.1.trans hs.2.1, ht.2.trans hs.2.2⟩

/-- C7: when `activate` runs with zero or one workspace folder
(`isMultiRoot` false), exactly one client is created eagerly, registered
under the single default key `rootPath || '/'` before any document event;
and along any subsequent event sequence the registry still holds exactly
that one entry and no further client is ever created. -/
theorem single_root_mode_one_session (wf : Option (List String))
    (rootPath : Option String) (openDocs : List Document) (es : List Event)
    (h : isMultiRoot wf = false) :
    (activate wf rootPath openDocs).cs.clients = [(defaultKey rootPath, 0)] ∧
    (run (activate wf rootPath openDocs) es).cs.clients
      = [(defaultKey rootPath, 0)] ∧
    (run (activate wf rootPath openDocs) es).cs.sessions.map Prod.fst = [0] := by
  have hact : activate wf rootPath openDocs = ⟨false, activateSingle rootPath⟩ := by
    unfold activate
    rw [h]
    rfl
  rw [hact]
  have hrun := run_single_preserves es ⟨false, activateSingle rootPath⟩ rfl
  refine ⟨rfl, ?_, ?_⟩
  · rw [hrun.1]; rfl
  · rw [hrun.2]; rfl

/-- C7 witness with one workspace folder, an open Python document and a
stream of editor events that would create and remove sessions in
multi-root mode. -/
theorem single_root_mode_one_session_witness :
    isMultiRoot (some ["file:///only"]) = false ∧
    (run (activate (some ["file:///only"]) (some "/only") [exDoc])
        [Event.docOpened exDoc, Event.foldersChanged [] ["/only"],
         Event.startCompleted 0]).cs.clients = [("/only", 0)] :=
  ⟨by decide,
   (single_root_mode_one_session (some ["file:///only"]) (some "/only") [exDoc]
      [Event.docOpened exDoc, Event.foldersChanged [] ["/only"],
       Event.startCompleted 0] (by decide)).2.1⟩

/-! ### C6: remove followed by re-open is not serialized -/

theorem mapGet_mapSet_self_of_not_has (m : List (String × Nat)) (k : String)
    (v : Nat) (hh : mapHas m k = false) : mapGet (mapSet m k v) k = some v := by
  unfold mapSet
  rw [hh]
  simp only [Bool.false_eq_true, if_false]
  unfold mapGet
  rw [List.find?_append]
  have h1 : m.find? (fun e => e.1 == k) = none := by
    rw [List.find?_eq_none]
    intro e he hek
    exact not_mem_keys_of_not_has m k hh
      (List.mem_map.mpr ⟨e, he, by simpa using hek⟩)
  rw [h1]
  simp [List.find?_singleton]

theorem find?_session_append_fresh (ss : List (Nat × SessionState)) (n : Nat)
    (s : SessionState) (hb : ∀ e ∈ ss, e.1 < n) :
    ((ss ++ [(n, s)]).find? (fun e => e.1 == n)) = some (n, s) := by
  rw [List.find?_append]
  have h1 : ss.find? (fun e => e.1 == n) = none := by
    rw [List.find?_eq_none]
    intro e he hek
    have h2 := hb e he
    have h3 : e.1 = n := by simpa using hek
    omega
  rw [h1]
  simp [List.find?_singleton]

theorem find?_setSessionState_self (ss : List (Nat × SessionState)) (sid : Nat)
    (s : SessionState) :
    (setSessionState ss sid s).find? (fun e => e.1 == sid)
      = (ss.find? (fun e => e.1 == sid)).map (fun e => (e.1, s)) := by
  induction ss with
  | nil => rfl
  | cons a t ih =>
    show ((if (a.1 == sid) = true then (a.1, s) else a) ::
        setSessionState t sid s).find? (fun e => e.1 == sid)
      = ((a :: t).find? (fun e => e.1 == sid)).map (fun e => (e.1, s))
    by_cases h1 : a.1 = sid
    · subst h1
      rw [if_pos (by simp)]
      rw [List.find?_cons_of_pos (p := fun e => e.1 == a.1)
        (setSessionState t a.1 s) (by simp)]
      rw [List.find?_cons_of_pos (p := fun e => e.1 == a.1) t (by simp)]
      rfl
    · rw [if_neg (by simp [h1])]
      rw [List.find?_cons_of_neg (p := fun e => e.1 == sid)
        (setSessionState t sid s) (by simp [h1])]
      rw [List.find?_cons_of_neg (p := fun e => e.1 == sid) t (by simp [h1])]
      exact ih

theorem setSessionState_bound (ss : List (Nat × SessionState)) (sid : Nat)
    (s : SessionState) (n : Nat) (hb : ∀ e ∈ ss, e.1 < n) :
    ∀ e ∈ setSessionState ss sid s, e.1 < n := by
  intro e he
  unfold setSessionState at he
  rcases List.mem_map.mp he with ⟨x, hx, hxe⟩
  have hxb := hb x hx
  by_cases h1 : (x.1 == sid) = true
  · rw [if_pos h1] at hxe
    rw [← hxe]
    exact hxb
  · rw [if_neg h1] at hxe
    rw [← hxe]
    exact hxb

/-- C6 counterexample: with a running client (id 0) for `file:///r1`, the
event sequence "folder removed, then a qualifying document reopened
there" — with NO intervening resolution of the old client's stop promise
— already registers and starts a brand-new client (id 1, `starting`)
while the old client is still `stopping`: the new start begins before the
prior stop has completed. -/
theorem remove_then_reopen_counterexample :
    mapGet (runMulti exSt [Event.foldersChanged [] ["file:///r1"],
        Event.docOpened exDoc]).clients "file:///r1" = some 1 ∧
    sessionStateOf (runMulti exSt [Event.foldersChanged [] ["file:///r1"],
        Event.docOpened exDoc]) 1 = some SessionState.starting ∧
    sessionStateOf (runMulti exSt [Event.foldersChanged [] ["file:///r1"],
        Event.docOpened exDoc]) 0 = some SessionState.stopping := by
  refine ⟨?_, ?_, ?_⟩ <;> rfl

/-- C6 (amended): when a root with a running client is removed and a
qualifying document under it is opened again before the old client's stop
promise resolves, `runLanguageClientOnDemand` immediately creates,
starts, and registers a fresh client for the same root — the new client
is `starting` while the prior client is still only `stopping`; per-root
operations are not serialized. -/
theorem remove_then_reopen_not_serialized (st : ClientState) (r : String)
    (sid : Nat) (d : Document)
    (hb : ∀ e ∈ st.sessions, e.1 < st.nextId)
    (hget : mapGet st.clients r = some sid)
    (hrun : sessionStateOf st sid = some SessionState.running)
    (hl : d.languageId = "python") (hs : d.scheme = "file")
    (hf : d.folder = some r) :
    mapGet (runMulti st [Event.foldersChanged [] [r], Event.docOpened d]).clients r
      = some st.nextId ∧
    sessionStateOf (runMulti st [Event.foldersChanged [] [r], Event.docOpened d])
      st.nextId = some SessionState.starting ∧
    sessionStateOf (runMulti st [Event.foldersChanged [] [r], Event.docOpened d])
      sid = some SessionState.stopping := by
  have hrm : runMulti st [Event.foldersChanged [] [r], Event.docOpened d]
      = (runLanguageClientOnDemand (removeFolder st r).1 d).1 := by
    show (stepMulti (stepMulti st (Event.foldersChanged [] [r])).1
        (Event.docOpened d)).1
      = (runLanguageClientOnDemand (removeFolder st r).1 d).1
    have h1 : (stepMulti st (Event.foldersChanged [] [r])).1
        = (removeFolder st r).1 := by
      show (onFoldersChanged st [r]).1 = (removeFolder st r).1
      rw [onFoldersChanged_fst]
      simp only [List.foldl_cons, List.foldl_nil]
    rw [h1]
    rfl
  have hst1 : (removeFolder st r).1
      = ⟨mapDelete st.clients r,
         setSessionState st.sessions sid SessionState.stopping, st.nextId⟩ := by
    unfold removeFolder
    rw [hget]
  have hq : (d.languageId == "python" && d.scheme == "file") = true := by
    simp [hl, hs]
  have hhas : mapHas (mapDelete st.clients r) r = false :=
    mapHas_mapDelete_self st.clients r
  have hst2 : (runLanguageClientOnDemand (removeFolder st r).1 d).1
      = ⟨mapSet (mapDelete st.clients r) r st.nextId,
         setSessionState st.sessions sid SessionState.stopping
           ++ [(st.nextId, SessionState.starting)],
         st.nextId + 1⟩ := by
    rw [hst1]
    unfold runLanguageClientOnDemand
    simp [hq, hf, hhas]
  rw [hrm, hst2]
  refine ⟨?_, ?_, ?_⟩
  · exact mapGet_mapSet_self_of_not_has _ r st.nextId hhas
  · unfold sessionStateOf
    simp only
    rw [find?_session_append_fresh _ st.nextId SessionState.starting
      (setSessionState_bound st.sessions sid SessionState.stopping st.nextId hb)]
    rfl
  · unfold sessionStateOf
    simp only
    rw [List.find?_append, find?_setSessionState_self]
    unfold sessionStateOf at hrun
    cases hfind : st.sessions.find? (fun e => e.1 == sid) with
    | none =>
      rw [hfind] at hrun
      exact absurd hrun (by simp)
    | some x => simp

/-- C6 amended-claim witness at the concrete one-client state. -/
theorem remove_then_reopen_not_serialized_witness :
    mapGet exSt.clients "file:///r1" = some 0 ∧
    sessionStateOf exSt 0 = some SessionState.running ∧
    mapGet (runMulti exSt [Event.foldersChanged [] ["file:///r1"],
        Event.docOpened exDoc]).clients "file:///r1" = some exSt.nextId :=
  ⟨by decide, by decide,
   (remove_then_reopen_not_serialized exSt "file:///r1" 0 exDoc
      (by decide) (by decide) (by decide) rfl rfl rfl).1⟩

end PyrightClient
